import Mathlib

/-!
Verification of `src/pao_trainer.py` (PAO memory trainer).

Shallow embedding conventions:
* A two-digit key `"00"`–`"99"` is `Key := Fin 100`; `pad2` renders it as the
  Python format string `f"{i:02d}"` does.
* Timestamps are integers (seconds); `datetime.now()` is an injected `now`
  parameter and `timedelta(hours=h)` is `h * 3600` seconds.
* The value stored under `"last_tested"` is `TS`: `absent` for `None`/falsy,
  `unparseable` for a string `datetime.fromisoformat` rejects (or an
  incomparable aware datetime — both make the code `continue`), `parsed t`
  for a cleanly parsed timestamp.
* The `self.stats` dict is `Stats`: `keys` is the dict's iteration
  (insertion) order, `entryOf` the stored value for each key.
* Python floats (`accuracy`, `priority_score`, `random.random()`) are
  embedded as exact rationals `ℚ`.
* Randomness is injected: `random.random()` is a parameter `r : ℚ`,
  `random.choice(lst)` reads an injected index, `random.randint(0,99)` an
  injected `Fin 100`, `random.sample(pop, 3)` an injected `sample : Nat →
  List Key` giving the draw of each loop iteration.
* Fallible dictionary/IO paths return `Option`/`Except`: `none`/`.error`
  marks an uncaught Python exception.
-/

namespace PAO

abbrev Key := Fin 100

/-- The stored `last_tested` value (see conventions above). -/
inductive TS where
  | absent : TS
  | unparseable : TS
  | parsed : Int → TS
deriving DecidableEq, Repr

/-- One value of the `self.stats` dict: `{"correct": _, "incorrect": _,
"last_tested": _}`. -/
structure StatsEntry where
  correct : Nat
  incorrect : Nat
  last_tested : TS
deriving DecidableEq, Repr

/-- The `self.stats` dict: its key iteration order and the stored entries. -/
structure Stats where
  keys : List Key
  entryOf : Key → StatsEntry

/-- The ephemeral `self.session_stats` dict. -/
structure SessionStats where
  correct : Nat
  incorrect : Nat
  total : Nat
deriving DecidableEq, Repr

/-- Initial `self.session_stats = {"correct": 0, "incorrect": 0, "total": 0}` from
`PAOTrainer.__init__`. -/
def init_session_stats : SessionStats := ⟨0, 0, 0⟩

/-- One value of the `self.pao_data` dict. -/
structure PAOEntry where
  person : String
  action : String
  object : String
deriving DecidableEq, Repr

/-- The `self.pao_data` dict: key iteration order plus the associations. -/
structure PAOData where
  keys : List Key
  assoc : Key → PAOEntry

/-- Python format `f"{i:02d}"`: the two-digit decimal rendering of a key. -/
def pad2 (n : Key) : String :=
  String.mk [Nat.digitChar (n.val / 10), Nat.digitChar (n.val % 10)]

/-- The comparison `last_tested >= cutoff_time` guarded by the truthiness
test and the `try`/`except` that skips absent or unparseable stamps. -/
def tsAtLeast (ts : TS) (cutoff : Int) : Bool :=
  match ts with
  | .parsed t => cutoff ≤ t
  | _ => false

/-- Function `get_accuracy` (src/pao_trainer.py:86-91). -/
def get_accuracy (st : Stats) (number : Key) : ℚ :=
  let correct := (st.entryOf number).correct
  let incorrect := (st.entryOf number).incorrect
  let total := correct + incorrect
  if 0 < total then (correct : ℚ) / (total : ℚ) * 100 else 0

/-- Expression `stats[number]["correct"] + stats[number]["incorrect"]`, the attempt
count the code recomputes at several places. -/
def totalAttempts (st : Stats) (number : Key) : Nat :=
  (st.entryOf number).correct + (st.entryOf number).incorrect

/-- Score `priority_score = accuracy - (total_attempts * 0.1)` from
`get_weakest_numbers` (src/pao_trainer.py:100). -/
def priority_score (st : Stats) (number : Key) : ℚ :=
  get_accuracy st number - (totalAttempts st number : ℚ) * (0.1 : ℚ)

/-- Function `get_weakest_numbers` (src/pao_trainer.py:93-105): build
`(number, accuracy, priority_score)` triples in dict order, sort ascending
by the score, return the first `count` as `(number, accuracy)` pairs. -/
def get_weakest_numbers (st : Stats) (count : Nat) : List (Key × ℚ) :=
  let numbers_with_accuracy :=
    st.keys.map (fun number => (number, get_accuracy st number, priority_score st number))
  let sorted := numbers_with_accuracy.mergeSort (fun a b => decide (a.2.2 ≤ b.2.2))
  (sorted.take count).map (fun x => (x.1, x.2.1))

/-- Function `get_recent_numbers` (src/pao_trainer.py:107-124). -/
def get_recent_numbers (st : Stats) (now : Int) (hours : Int) (count : Nat) : List Key :=
  if hours ≤ 0 then []
  else
    let cutoff_time := now - hours * 3600
    let recent_numbers :=
      st.keys.filter (fun number => tsAtLeast (st.entryOf number).last_tested cutoff_time)
    recent_numbers.take count

/-- Function `get_recently_learned_numbers` (src/pao_trainer.py:541-558). -/
def get_recently_learned_numbers (st : Stats) (now : Int) (hours : Int) (min_correct : Nat) :
    List Key :=
  if hours ≤ 0 then []
  else
    let cutoff_time := now - hours * 3600
    st.keys.filter (fun number =>
      decide (min_correct ≤ (st.entryOf number).correct) &&
        tsAtLeast (st.entryOf number).last_tested cutoff_time)

/-- Function `update_stats` (src/pao_trainer.py:73-84).  `self.stats[number]` on a
missing key would raise `KeyError`, hence the `Option`. -/
def update_stats (st : Stats) (sess : SessionStats) (now : Int) (number : Key)
    (correct : Bool) : Option (Stats × SessionStats) :=
  if number ∈ st.keys then
    let e := st.entryOf number
    let e' :=
      if correct then { e with correct := e.correct + 1, last_tested := .parsed now }
      else { e with incorrect := e.incorrect + 1, last_tested := .parsed now }
    let sess' :=
      if correct then { sess with correct := sess.correct + 1, total := sess.total + 1 }
      else { sess with incorrect := sess.incorrect + 1, total := sess.total + 1 }
    some ({ st with entryOf := fun n => if n = number then e' else st.entryOf n }, sess')
  else none

/-- Python's `''.join(selected)` on a list of key strings. -/
def joinKeys (selected : List Key) : String := String.join (selected.map pad2)

/-- The body of the `for _ in range(count * 3)` loop of
`generate_combination_sequences` (src/pao_trainer.py:569-575): iteration
`i` re-checks `len(recent_numbers) >= 3`, draws `sample i`, joins it and
keeps the sequence when it is new. -/
def comboStep (recent_numbers : List Key) (sample : Nat → List Key)
    (combinations : List String) (i : Nat) : List String :=
  if 3 ≤ recent_numbers.length then
    let combination_sequence := joinKeys (sample i)
    if combination_sequence ∈ combinations then combinations
    else combinations ++ [combination_sequence]
  else combinations

/-- Function `generate_combination_sequences` (src/pao_trainer.py:560-577).  The
`random.sample(recent_numbers, 3)` of loop iteration `i` is the injected
`sample i`. -/
def generate_combination_sequences (st : Stats) (now : Int) (count : Nat)
    (sample : Nat → List Key) : List String :=
  let recent_numbers := get_recently_learned_numbers st now 48 1
  if recent_numbers.length < 3 then []
  else
    let combinations :=
      (List.range (count * 3)).foldl (comboStep recent_numbers sample) []
    combinations.take count

/-- Predicate for admissible samplers: `random.sample(pop, 3)` always returns 3 distinct members of `pop`; an
injected sampler is admissible when every draw does. -/
def validSample (pop : List Key) (sample : Nat → List Key) : Prop :=
  ∀ i : Nat, (sample i).length = 3 ∧ (sample i).Nodup ∧ ∀ k ∈ sample i, k ∈ pop

/-- Draw `random.choice(l)` with injected draw `i` (used only with `i <
l.length`, where it is `l.get ⟨i, _⟩`). -/
def pick (l : List String) (i : Nat) : String := l.getD (i % l.length) ""

/-- The `very_recent` pool of `select_number_for_training`
(src/pao_trainer.py:129), as key strings. -/
def veryRecentPool (st : Stats) (now : Int) : List String :=
  (get_recent_numbers st now 2 5).map pad2

/-- The `recent` pool of `select_number_for_training` (src/pao_trainer.py:130). -/
def recentPool (st : Stats) (now : Int) : List String :=
  (get_recent_numbers st now 8 10).map pad2

/-- The `weak_numbers` pool of `select_number_for_training`
(src/pao_trainer.py:133). -/
def weakPool (st : Stats) : List String :=
  (get_weakest_numbers st 15).map (fun p => pad2 p.1)

/-- Function `select_number_for_training` (src/pao_trainer.py:126-155).  `r` is the
single `random.random()` draw; `c1`–`c4` the `random.choice` draws of the
four pools; `fb` the `random.randint(0, 99)` fallback draw. -/
def select_number_for_training (st : Stats) (now : Int) (r : ℚ)
    (c1 c2 c3 c4 : Nat) (fb : Key) (sample : Nat → List Key) : String :=
  let very_recent := veryRecentPool st now
  let recent := recentPool st now
  let weak_numbers := weakPool st
  let combination_sequences := generate_combination_sequences st now 8 sample
  if r < 0.35 ∧ very_recent ≠ [] then pick very_recent c1
  else if r < 0.50 ∧ recent ≠ [] then pick recent c2
  else if r < 0.65 ∧ weak_numbers ≠ [] then pick weak_numbers c3
  else if r < 0.80 ∧ combination_sequences ≠ [] then pick combination_sequences c4
  else pad2 fb

/-- Modelled from the claim's words (the spec side of the refinement for
claim C1): partition `[0,1)` into the cumulative bands very-recent
`[0,0.35)`, recent `[0.35,0.50)`, weak `[0.50,0.65)`, combos `[0.65,0.80)`,
fallback `[0.80,1)`; a band whose pool is empty falls through to the next
non-empty band in that order and finally to fallback; within the chosen
band the item is taken from that pool by the injected uniform draw. -/
def selectBandSpec (st : Stats) (now : Int) (r : ℚ)
    (c1 c2 c3 c4 : Nat) (fb : Key) (sample : Nat → List Key) : String :=
  let pools : List (List String × Nat) :=
    [(veryRecentPool st now, c1), (recentPool st now, c2), (weakPool st, c3),
     (generate_combination_sequences st now 8 sample, c4)]
  let band : Nat :=
    if r < 0.35 then 0 else if r < 0.50 then 1 else if r < 0.65 then 2
    else if r < 0.80 then 3 else 4
  ((pools.drop band).find? (fun p => !p.1.isEmpty)).elim (pad2 fb) (fun p => pick p.1 p.2)

/-- Python `list(dict.fromkeys(l))`: drop duplicates keeping first occurrences. -/
def pyDedup (l : List String) : List String :=
  l.foldl (fun acc a => if a ∈ acc then acc else acc ++ [a]) []

/-- The three deduplicated component lists `get_recent_components` returns. -/
structure RecentComponents where
  persons : List String
  actions : List String
  objects : List String
deriving DecidableEq, Repr

/-- Function `get_recent_components` (src/pao_trainer.py:488-512). -/
def get_recent_components (st : Stats) (pao : PAOData) (now : Int) (hours : Int) :
    RecentComponents :=
  if hours ≤ 0 then ⟨[], [], []⟩
  else
    let cutoff_time := now - hours * 3600
    let eligible := st.keys.filter (fun number =>
      decide (0 < (st.entryOf number).correct) &&
        tsAtLeast (st.entryOf number).last_tested cutoff_time)
    { persons := pyDedup (eligible.map (fun number => (pao.assoc number).person))
      actions := pyDedup (eligible.map (fun number => (pao.assoc number).action))
      objects := pyDedup (eligible.map (fun number => (pao.assoc number).object)) }

/-- The per-number test of `find_combination_test_numbers`: at least two of
the number's components are among the recent components, and the number is
not among the (at most 50) numbers tested in the last 24 hours. -/
def combinationCandidate (st : Stats) (pao : PAOData) (now : Int)
    (rc : RecentComponents) (number : Key) : Bool :=
  let p := pao.assoc number
  let recent_component_count :=
    (if p.person ∈ rc.persons then 1 else 0) +
    (if p.action ∈ rc.actions then 1 else 0) +
    (if p.object ∈ rc.objects then 1 else 0)
  decide (2 ≤ recent_component_count) &&
    !(decide (number ∈ get_recent_numbers st now 24 50))

/-- Function `find_combination_test_numbers` (src/pao_trainer.py:514-539). -/
def find_combination_test_numbers (st : Stats) (pao : PAOData) (now : Int)
    (count : Nat) : List Key :=
  let recent_components := get_recent_components st pao now 48
  if recent_components.persons = [] ∧ recent_components.actions = [] ∧
      recent_components.objects = [] then []
  else
    let combination_numbers :=
      pao.keys.filter (combinationCandidate st pao now recent_components)
    combination_numbers.take count

/-- Flag `is_combination_test = number in self.find_combination_test_numbers(count=20)`
(src/pao_trainer.py:304-305). -/
def is_combination_test (st : Stats) (pao : PAOData) (now : Int) (number : Key) : Bool :=
  decide (number ∈ find_combination_test_numbers st pao now 20)

/-- The component-wise case-insensitive grading of `test_number_forward`
(src/pao_trainer.py:260-264); the user answers are taken post-`strip()`. -/
def gradeForward (p : PAOEntry) (user_person user_action user_object : String) : Bool :=
  (user_person.toLower == p.person.toLower) &&
    (user_action.toLower == p.action.toLower) &&
    (user_object.toLower == p.object.toLower)

/-- The grading of `test_number_reverse` (src/pao_trainer.py:287):
`user_number == number or user_number == str(int(number))`. -/
def gradeReverse (number : Key) (user_number : String) : Bool :=
  (user_number == pad2 number) || (user_number == toString number.val)

/-- Function `test_number_comprehensive` (src/pao_trainer.py:295-366), projected to
its returned grade and the presentation lines that depend on the
combination-test flag.  `coin` is the `random.random() < 0.5` direction
draw of the non-first-time branch. -/
def test_number_comprehensive (st : Stats) (pao : PAOData) (now : Int) (number : Key)
    (coin : Bool) (user_person user_action user_object user_number : String) :
    Bool × List String :=
  let total_attempts := (st.entryOf number).correct + (st.entryOf number).incorrect
  let is_first_time := total_attempts = 0
  let isCombinationTest := is_combination_test st pao now number
  if is_first_time then
    (gradeForward (pao.assoc number) user_person user_action user_object,
     ["FIRST TIME SEEING THIS NUMBER - STUDY TIME!"])
  else
    let banner :=
      if isCombinationTest then
        ["COMBINATION CHALLENGE!",
         "This number mixes components you have recently learned."]
      else []
    let correct :=
      if coin then gradeForward (pao.assoc number) user_person user_action user_object
      else gradeReverse number user_number
    let verdict :=
      if correct then
        if isCombinationTest then ["AMAZING! You successfully mixed and matched components!"]
        else ["PERFECT! Correct answer!"]
      else
        if isCombinationTest then ["Combination challenge failed."]
        else ["Study this association and try again later."]
    (correct, banner ++ verdict)

/-- The string-keyed `self.stats[number]` access of the training loop:
recover the key a two-digit string denotes. -/
def keyOfString (s : String) : Option Key :=
  (List.finRange 100).find? (fun k => pad2 k == s)

/-- One stats-relevant step of the `training_mode` loop
(src/pao_trainer.py:382-390): a 6-character selection goes to
`test_combination_sequence` and no stats are updated; otherwise the number
is tested and `update_stats` runs.  `none` marks a `KeyError`. -/
def training_step (st : Stats) (sess : SessionStats) (now : Int) (number : String)
    (correct : Bool) : Option (Stats × SessionStats) :=
  if number.length = 6 then some (st, sess)
  else
    match keyOfString number with
    | some k => update_stats st sess now k correct
    | none => none

/-- One value of the parsed stats JSON object; `last_tested = none` models
a value dict without the `"last_tested"` field. -/
structure RawEntry where
  correct : Nat
  incorrect : Nat
  last_tested : Option TS
deriving DecidableEq, Repr

/-- What `load_stats` finds when it goes for the stats file.  `object m`
is the dict `json.load` returns (key-unique, in file order); `nonObject`
is a file holding valid JSON whose top level is not an object (for example
`[]`), which `json.load` happily returns. -/
inductive StatsFile where
  | missing : StatsFile
  | unreadable : StatsFile
  | corrupt : StatsFile
  | nonObject : StatsFile
  | object : List (Key × RawEntry) → StatsFile

/-- A fresh `{"correct": 0, "incorrect": 0, "last_tested": None}` entry. -/
def freshEntry : StatsEntry := ⟨0, 0, .absent⟩

/-- The fresh ledger `load_stats` builds for all numbers 00-99
(src/pao_trainer.py:63). -/
def freshStats : Stats := ⟨List.finRange 100, fun _ => freshEntry⟩

/-- Lookup in the parsed JSON object. -/
def lookupRaw (entries : List (Key × RawEntry)) (k : Key) : Option RawEntry :=
  (entries.find? (fun p => p.1 == k)).map Prod.snd

/-- Function `load_stats` (src/pao_trainer.py:45-63).  A missing file skips the read
(`os.path.exists`); `IOError` and `json.JSONDecodeError` are caught and
fall through to the fresh ledger; a top-level non-object raises an uncaught
`TypeError` while the 00-99 normalization loop indexes it, modelled as
`.error ()`.  For a parsed object, every key of 00-99 missing from it is
appended fresh (in numeric order), and a present value without
`"last_tested"` gets `None` filled in. -/
def load_stats : StatsFile → Except Unit Stats
  | .missing => .ok freshStats
  | .unreadable => .ok freshStats
  | .corrupt => .ok freshStats
  | .nonObject => .error ()
  | .object entries =>
      .ok { keys := entries.map Prod.fst ++
              (List.finRange 100).filter (fun k => (lookupRaw entries k).isNone)
            entryOf := fun k =>
              match lookupRaw entries k with
              | some r => ⟨r.correct, r.incorrect, r.last_tested.getD .absent⟩
              | none => freshEntry }

/-- Clock-sanity: a stored stamp, when parsed, is no later than `now`. -/
def tsLe (ts : TS) (now : Int) : Prop := ∀ t : Int, ts = .parsed t → t ≤ now

/-! Concrete states used by witnesses and counterexamples. -/

/-- The empty stats dict (the spec's "force the pools empty" test state). -/
def stEmpty : Stats := ⟨[], fun _ => freshEntry⟩

/-- A full 00-99 ledger whose key 00 carries a timestamp two hours in the
future of `now = 0`. -/
def st3 : Stats :=
  ⟨List.finRange 100, fun k => if k.val = 0 then ⟨1, 0, .parsed 7200⟩ else freshEntry⟩

/-- A full 00-99 ledger: key 99 was answered correctly 30 hours before
`now = 0`, everything else is untested. -/
def st5 : Stats :=
  ⟨List.finRange 100, fun k => if k.val = 99 then ⟨1, 0, .parsed (-108000)⟩ else freshEntry⟩

/-- An association table in which every key shares the components of key 99. -/
def pao5 : PAOData := ⟨List.finRange 100, fun _ => ⟨"A", "B", "C"⟩⟩

/-- A full 00-99 ledger: keys 00, 01, 02 were answered correctly 100 seconds
before `now = 0`. -/
def stW : Stats :=
  ⟨List.finRange 100, fun k => if k.val ≤ 2 then ⟨1, 0, .parsed (-100)⟩ else freshEntry⟩

/-- A sampler that always draws the keys 00, 01, 02. -/
def sampleW : Nat → List Key := fun _ => [⟨0, by omega⟩, ⟨1, by omega⟩, ⟨2, by omega⟩]

/-! Theorems. -/

/-- C7: for every key `k` and ledger state, `accuracy(k)` lies in `[0,100]`,
equals `0` when `attempts(k) = 0`, and otherwise equals
`correct/(correct+incorrect) × 100`. -/
theorem C7_accuracy_bounds (st : Stats) (number : Key) :
    0 ≤ get_accuracy st number ∧ get_accuracy st number ≤ 100 ∧
    (totalAttempts st number = 0 → get_accuracy st number = 0) ∧
    (0 < totalAttempts st number →
      get_accuracy st number =
        ((st.entryOf number).correct : ℚ) / (totalAttempts st number : ℚ) * 100) := by
  have hsplit : get_accuracy st number =
      if 0 < (st.entryOf number).correct + (st.entryOf number).incorrect then
        ((st.entryOf number).correct : ℚ) /
          (((st.entryOf number).correct + (st.entryOf number).incorrect : Nat) : ℚ) * 100
      else 0 := by
    simp [get_accuracy]
  by_cases h : 0 < (st.entryOf number).correct + (st.entryOf number).incorrect
  · have hposQ : (0 : ℚ) <
        (((st.entryOf number).correct + (st.entryOf number).incorrect : Nat) : ℚ) := by
      exact_mod_cast h
    have hle : ((st.entryOf number).correct : ℚ) ≤
        (((st.entryOf number).correct + (st.entryOf number).incorrect : Nat) : ℚ) := by
      exact_mod_cast Nat.le_add_right _ _
    have hdiv0 : (0 : ℚ) ≤ ((st.entryOf number).correct : ℚ) /
        (((st.entryOf number).correct + (st.entryOf number).incorrect : Nat) : ℚ) := by
      positivity
    have hdiv1 : ((st.entryOf number).correct : ℚ) /
        (((st.entryOf number).correct + (st.entryOf number).incorrect : Nat) : ℚ) ≤ 1 :=
      div_le_one_of_le₀ hle (le_of_lt hposQ)
    refine ⟨?_, ?_, ?_, ?_⟩
    · rw [hsplit, if_pos h]; nlinarith
    · rw [hsplit, if_pos h]; nlinarith
    · intro h0; exact absurd h0 (by unfold totalAttempts; omega)
    · intro _; rw [hsplit, if_pos h]; rfl
  · refine ⟨?_, ?_, ?_, ?_⟩
    · rw [hsplit, if_neg h]
    · rw [hsplit, if_neg h]; norm_num
    · intro _; rw [hsplit, if_neg h]
    · intro h0; exact absurd h0 (by unfold totalAttempts; omega)

/-- C8: `recordAttempt(k, true)` adds exactly 1 to `k`'s correct counter and
leaves its incorrect counter alone, conversely for `false`; `last_tested`
becomes the current time, which (clock sanity) is at least its previous
value; every other key's record is untouched and the key set is unchanged. -/
theorem C8_update_stats_spec (st : Stats) (sess : SessionStats) (now : Int)
    (number : Key) (b : Bool) (hmem : number ∈ st.keys)
    (hclock : ∀ j : Key, tsLe (st.entryOf j).last_tested now) :
    ∃ st' sess', update_stats st sess now number b = some (st', sess') ∧
      st'.keys = st.keys ∧
      (b = true → (st'.entryOf number).correct = (st.entryOf number).correct + 1 ∧
        (st'.entryOf number).incorrect = (st.entryOf number).incorrect) ∧
      (b = false → (st'.entryOf number).incorrect = (st.entryOf number).incorrect + 1 ∧
        (st'.entryOf number).correct = (st.entryOf number).correct) ∧
      (st'.entryOf number).last_tested = .parsed now ∧
      tsLe (st.entryOf number).last_tested now ∧
      (∀ j : Key, j ≠ number → st'.entryOf j = st.entryOf j) := by
  unfold update_stats
  simp only [if_pos hmem]
  refine ⟨_, _, rfl, rfl, ?_, ?_, ?_, hclock number, ?_⟩
  · intro hb; subst hb; simp
  · intro hb; subst hb; simp
  · cases b <;> simp
  · intro j hj; simp [hj]

/-- C8 witness: recording a correct attempt on key 00 of the fresh ledger. -/
theorem C8_update_stats_spec_witness :
    ∃ st' sess',
      update_stats freshStats init_session_stats 5 ⟨0, by omega⟩ true = some (st', sess') ∧
      st'.keys = freshStats.keys ∧ (st'.entryOf ⟨0, by omega⟩).last_tested = .parsed 5 := by
  obtain ⟨st', sess', h1, h2, _, _, h5, _, _⟩ :=
    C8_update_stats_spec freshStats init_session_stats 5 ⟨0, by omega⟩ true (by decide)
      (by intro j t ht; simp [freshStats, freshEntry] at ht)
  exact ⟨st', sess', h1, h2, h5⟩

/-- C10: the session counters start at `total = correct + incorrect = 0`,
and each `update_stats` call adds 1 to `total` and to exactly one of the
session's correct/incorrect counters, preserving the invariant. -/
theorem C10_session_counters_invariant :
    (init_session_stats.total = init_session_stats.correct + init_session_stats.incorrect) ∧
    ∀ (st : Stats) (sess : SessionStats) (now : Int) (number : Key) (b : Bool)
      (st' : Stats) (sess' : SessionStats),
      update_stats st sess now number b = some (st', sess') →
      sess.total = sess.correct + sess.incorrect →
      (sess'.total = sess'.correct + sess'.incorrect ∧
       sess'.total = sess.total + 1 ∧
       (b = true → sess'.correct = sess.correct + 1 ∧ sess'.incorrect = sess.incorrect) ∧
       (b = false → sess'.incorrect = sess.incorrect + 1 ∧ sess'.correct = sess.correct)) := by
  refine ⟨rfl, ?_⟩
  intro st sess now number b st' sess' hupd hinv
  unfold update_stats at hupd
  by_cases hmem : number ∈ st.keys
  · rw [if_pos hmem] at hupd
    injection hupd with hpair
    injection hpair with hst hsess
    subst hsess
    cases b <;>
      refine ⟨by simp; omega, by simp, ?_, ?_⟩ <;> intro hb <;> simp_all
  · rw [if_neg hmem] at hupd
    exact absurd hupd (by simp)

/-- C9: a missing, unreadable (`IOError`) or unparseable (`JSONDecodeError`)
stats file yields the fresh ledger, which holds a zero/absent entry for
every key 00-99; a parsed object is normalized so every key 00-99 is
present, missing keys get zero counters and an absent stamp, and a present
value without the `last_tested` field gets it filled with `None`.  But a
file holding valid JSON whose top level is not an object escapes both
`except` clauses and crashes the load (`.error`), contradicting the
claim's "never crashes". -/
theorem C9_load_stats_behavior :
    load_stats .missing = .ok freshStats ∧
    load_stats .unreadable = .ok freshStats ∧
    load_stats .corrupt = .ok freshStats ∧
    (∀ k : Key, k ∈ freshStats.keys ∧ freshStats.entryOf k = ⟨0, 0, .absent⟩) ∧
    (∀ entries : List (Key × RawEntry), ∃ st : Stats,
      load_stats (.object entries) = .ok st ∧
      ∀ k : Key, k ∈ st.keys ∧
        (lookupRaw entries k = none → st.entryOf k = ⟨0, 0, .absent⟩) ∧
        (∀ r : RawEntry, lookupRaw entries k = some r →
          st.entryOf k = ⟨r.correct, r.incorrect, r.last_tested.getD .absent⟩)) ∧
    load_stats .nonObject = .error () := by
  refine ⟨rfl, rfl, rfl, ?_, ?_, rfl⟩
  · intro k
    exact ⟨List.mem_finRange k, rfl⟩
  · intro entries
    refine ⟨_, rfl, ?_⟩
    intro k
    refine ⟨?_, ?_, ?_⟩
    · cases hl : lookupRaw entries k with
      | none =>
        apply List.mem_append_right
        exact List.mem_filter.mpr ⟨List.mem_finRange k, by simp [hl]⟩
      | some r =>
        apply List.mem_append_left
        obtain ⟨p, hp, hpr⟩ := Option.map_eq_some'.mp hl
        have hk : p.1 = k := by
          have := List.find?_some hp
          exact eq_of_beq this
        exact List.mem_map.mpr ⟨p, List.mem_of_find?_eq_some hp, hk⟩
    · intro hl
      show (match lookupRaw entries k with
        | some r => StatsEntry.mk r.correct r.incorrect (r.last_tested.getD .absent)
        | none => freshEntry) = ⟨0, 0, .absent⟩
      rw [hl]
      rfl
    · intro r hl
      show (match lookupRaw entries k with
        | some r => StatsEntry.mk r.correct r.incorrect (r.last_tested.getD .absent)
        | none => freshEntry) = ⟨r.correct, r.incorrect, r.last_tested.getD .absent⟩
      rw [hl]

/-- Every element of the sorted triple list of `get_weakest_numbers` is a
`(number, accuracy, priority_score)` triple of a ledger key. -/
lemma weakest_triples_shape (st : Stats) (x : Key × ℚ × ℚ)
    (hx : x ∈ (st.keys.map
        (fun number => (number, get_accuracy st number, priority_score st number))).mergeSort
        (fun a b => decide (a.2.2 ≤ b.2.2))) :
    x.1 ∈ st.keys ∧ x.2.1 = get_accuracy st x.1 ∧ x.2.2 = priority_score st x.1 := by
  have hx' : x ∈ st.keys.map
      (fun number => (number, get_accuracy st number, priority_score st number)) :=
    (List.mergeSort_perm _ _).mem_iff.mp hx
  obtain ⟨n, hn, rfl⟩ := List.mem_map.mp hx'
  exact ⟨hn, rfl, rfl⟩

/-- C2: `get_weakest_numbers st n` returns at most `n` pairs, each pair is a
ledger key with its accuracy, the pairs are sorted ascending by the priority
score `accuracy − attempts×0.1`, and an untested key's priority score is 0
(hence, by the sortedness, untested entries sit after negative-score entries
and before positive-score entries). -/
theorem C2_weakest_numbers (st : Stats) (count : Nat) :
    (get_weakest_numbers st count).length ≤ count ∧
    (∀ p ∈ get_weakest_numbers st count, p.1 ∈ st.keys ∧ p.2 = get_accuracy st p.1) ∧
    (get_weakest_numbers st count).Pairwise
      (fun a b => priority_score st a.1 ≤ priority_score st b.1) ∧
    (∀ k : Key, totalAttempts st k = 0 → priority_score st k = 0) := by
  have hout : get_weakest_numbers st count =
      (((st.keys.map
          (fun number => (number, get_accuracy st number, priority_score st number))).mergeSort
          (fun a b => decide (a.2.2 ≤ b.2.2))).take count).map (fun x => (x.1, x.2.1)) := rfl
  refine ⟨?_, ?_, ?_, ?_⟩
  · rw [hout, List.length_map, List.length_take]
    exact inf_le_left
  · intro p hp
    rw [hout] at hp
    obtain ⟨x, hx, rfl⟩ := List.mem_map.mp hp
    obtain ⟨h1, h2, -⟩ := weakest_triples_shape st x (List.mem_of_mem_take hx)
    exact ⟨h1, h2.symm ▸ rfl⟩
  · rw [hout]
    apply List.pairwise_map.mpr
    have hsorted : (((st.keys.map
        (fun number => (number, get_accuracy st number, priority_score st number))).mergeSort
        (fun a b => decide (a.2.2 ≤ b.2.2)))).Pairwise (fun a b => a.2.2 ≤ b.2.2) := by
      have htrans : ∀ (a b c : Key × ℚ × ℚ), decide (a.2.2 ≤ b.2.2) = true →
          decide (b.2.2 ≤ c.2.2) = true → decide (a.2.2 ≤ c.2.2) = true := by
        intro a b c hab hbc
        exact decide_eq_true (le_trans (of_decide_eq_true hab) (of_decide_eq_true hbc))
      have htotal : ∀ (a b : Key × ℚ × ℚ),
          (decide (a.2.2 ≤ b.2.2) || decide (b.2.2 ≤ a.2.2)) = true := by
        intro a b
        simpa using le_total a.2.2 b.2.2
      exact (List.sorted_mergeSort htrans htotal _).imp (fun h => of_decide_eq_true h)
    have htake := hsorted.sublist (List.take_sublist count _)
    refine htake.imp_of_mem ?_
    intro a b ha hb hab
    obtain ⟨-, -, ha3⟩ := weakest_triples_shape st a (List.mem_of_mem_take ha)
    obtain ⟨-, -, hb3⟩ := weakest_triples_shape st b (List.mem_of_mem_take hb)
    simpa [ha3, hb3] using hab
  · intro k hk
    unfold totalAttempts at hk
    simp [priority_score, get_accuracy, totalAttempts, hk]

/-- C3 counterexample: with `now = 0` and a 1-hour window, the claim's
closed interval is `[-3600, 0]`, yet key 00 of `st3`, stamped at `+7200`
(two hours in the future), is returned by `get_recent_numbers` — the code
only checks `last_tested >= cutoff_time`, never `last_tested <= now`. -/
theorem C3_counterexample :
    (⟨0, by omega⟩ : Key) ∈ get_recent_numbers st3 0 1 10 ∧
    (st3.entryOf ⟨0, by omega⟩).last_tested = .parsed 7200 ∧
    ¬((7200 : Int) ≤ 0) := by
  refine ⟨by decide, rfl, by norm_num⟩

/-- C3 amended: for a positive window, `get_recent_numbers` returns at most
`count` keys; every returned key is a ledger key whose stamp parsed and is
at least `now − hours×3600` (keys with absent or unparseable stamps are
excluded) — with no upper bound at `now`; and whenever at most `count` keys
qualify, every qualifying key is returned. -/
theorem C3_recent_numbers (st : Stats) (now : Int) (hours : Int) (count : Nat)
    (hpos : 0 < hours) :
    (get_recent_numbers st now hours count).length ≤ count ∧
    (∀ k ∈ get_recent_numbers st now hours count,
      k ∈ st.keys ∧ ∃ t : Int, (st.entryOf k).last_tested = .parsed t ∧
        now - hours * 3600 ≤ t) ∧
    (∀ k ∈ st.keys,
      (∃ t : Int, (st.entryOf k).last_tested = .parsed t ∧ now - hours * 3600 ≤ t) →
      (st.keys.filter
        (fun number => tsAtLeast (st.entryOf number).last_tested (now - hours * 3600))).length
          ≤ count →
      k ∈ get_recent_numbers st now hours count) := by
  have hne : ¬(hours ≤ 0) := not_le.mpr hpos
  have hout : get_recent_numbers st now hours count =
      (st.keys.filter
        (fun number => tsAtLeast (st.entryOf number).last_tested (now - hours * 3600))).take
        count := by
    unfold get_recent_numbers
    rw [if_neg hne]
  refine ⟨?_, ?_, ?_⟩
  · rw [hout, List.length_take]
    exact inf_le_left
  · intro k hk
    rw [hout] at hk
    have hk' := List.mem_of_mem_take hk
    obtain ⟨hmem, hts⟩ := List.mem_filter.mp hk'
    refine ⟨hmem, ?_⟩
    cases h : (st.entryOf k).last_tested with
    | parsed t =>
      refine ⟨t, rfl, ?_⟩
      rw [h] at hts
      exact of_decide_eq_true hts
    | absent => rw [h] at hts; exact absurd hts (by simp [tsAtLeast])
    | unparseable => rw [h] at hts; exact absurd hts (by simp [tsAtLeast])
  · intro k hmem ⟨t, ht, htc⟩ hlen
    rw [hout, List.take_of_length_le hlen]
    exact List.mem_filter.mpr ⟨hmem, by rw [ht]; exact decide_eq_true htc⟩

/-- C3 witness: the amended theorem applied to the future-stamped ledger
`st3` at a 24-hour window. -/
theorem C3_recent_numbers_witness :
    (get_recent_numbers st3 0 24 10).length ≤ 10 ∧
    (⟨0, by omega⟩ : Key) ∈ get_recent_numbers st3 0 24 10 := by
  have h := C3_recent_numbers st3 0 24 10 (by norm_num)
  refine ⟨h.1, ?_⟩
  refine h.2.2 ⟨0, by omega⟩ (by decide) ⟨7200, rfl, by norm_num⟩ (by decide)

/-- What a generated combination sequence is: the in-order concatenation of
three distinct recently-learned keys, 6 characters long. -/
def comboSpec (recent : List Key) (s : String) : Prop :=
  ∃ a b c : Key, a ∈ recent ∧ b ∈ recent ∧ c ∈ recent ∧
    a ≠ b ∧ a ≠ c ∧ b ≠ c ∧ s = joinKeys [a, b, c] ∧ s.length = 6

lemma pad2_length (k : Key) : (pad2 k).length = 2 := rfl

lemma joinKeys_three_length (a b c : Key) : (joinKeys [a, b, c]).length = 6 := by
  show (((("" : String) ++ pad2 a) ++ pad2 b) ++ pad2 c).length = 6
  rw [String.length_append, String.length_append, String.length_append,
    pad2_length, pad2_length, pad2_length]
  rfl

lemma list_length_three {α : Type*} {l : List α} (h : l.length = 3) :
    ∃ a b c : α, l = [a, b, c] := by
  cases l with
  | nil => simp at h
  | cons a t =>
    cases t with
    | nil => simp at h
    | cons b u =>
      cases u with
      | nil => simp at h
      | cons c v =>
        cases v with
        | nil => exact ⟨a, b, c, rfl⟩
        | cons d w => simp at h

/-- An admissible sampler's draw is a triple of distinct pool members. -/
lemma sample_three {recent : List Key} {sample : Nat → List Key}
    (hs : validSample recent sample) (i : Nat) :
    ∃ a b c : Key, sample i = [a, b, c] ∧ a ∈ recent ∧ b ∈ recent ∧ c ∈ recent ∧
      a ≠ b ∧ a ≠ c ∧ b ≠ c := by
  obtain ⟨hlen, hnd, hmem⟩ := hs i
  obtain ⟨a, b, c, e⟩ := list_length_three hlen
  rw [e] at hnd
  have hab : a ≠ b := by intro hh; subst hh; simp at hnd
  have hac : a ≠ c := by intro hh; subst hh; simp at hnd
  have hbc : b ≠ c := by intro hh; subst hh; simp at hnd
  refine ⟨a, b, c, e, ?_, ?_, ?_, hab, hac, hbc⟩
  · exact hmem a (by rw [e]; simp)
  · exact hmem b (by rw [e]; simp)
  · exact hmem c (by rw [e]; simp)

/-- Invariant of the generation loop: the accumulated sequences stay
duplicate-free and each satisfies `comboSpec`. -/
lemma comboStep_foldl_spec (recent : List Key) (sample : Nat → List Key)
    (hs : validSample recent sample) (l : List Nat) (acc : List String)
    (h1 : acc.Nodup) (h2 : ∀ s ∈ acc, comboSpec recent s) :
    (l.foldl (comboStep recent sample) acc).Nodup ∧
    ∀ s ∈ l.foldl (comboStep recent sample) acc, comboSpec recent s := by
  induction l generalizing acc with
  | nil => exact ⟨h1, h2⟩
  | cons i l ih =>
    rw [List.foldl_cons]
    have hstep : (comboStep recent sample acc i).Nodup ∧
        ∀ s ∈ comboStep recent sample acc i, comboSpec recent s := by
      unfold comboStep
      by_cases h3 : 3 ≤ recent.length
      · by_cases hmem : joinKeys (sample i) ∈ acc
        · simp only [if_pos h3, if_pos hmem]
          exact ⟨h1, h2⟩
        · simp only [if_pos h3, if_neg hmem]
          constructor
          · exact h1.append (List.nodup_singleton _) (List.disjoint_singleton.mpr hmem)
          · intro s hsmem
            rcases List.mem_append.mp hsmem with h | h
            · exact h2 s h
            · obtain ⟨a, b, c, e, ha, hb, hc, hab, hac, hbc⟩ := sample_three hs i
              rw [List.mem_singleton.mp h, e]
              exact ⟨a, b, c, ha, hb, hc, hab, hac, hbc, rfl, joinKeys_three_length a b c⟩
      · simp only [if_neg h3]
        exact ⟨h1, h2⟩
    exact ih _ hstep.1 hstep.2

/-- The full specification of `generate_combination_sequences` for an
admissible sampler. -/
lemma generate_spec (st : Stats) (now : Int) (count : Nat) (sample : Nat → List Key)
    (hs : validSample (get_recently_learned_numbers st now 48 1) sample) :
    ((get_recently_learned_numbers st now 48 1).length < 3 →
      generate_combination_sequences st now count sample = []) ∧
    (generate_combination_sequences st now count sample).length ≤ count ∧
    (generate_combination_sequences st now count sample).Nodup ∧
    ∀ s ∈ generate_combination_sequences st now count sample,
      comboSpec (get_recently_learned_numbers st now 48 1) s := by
  have hout : generate_combination_sequences st now count sample =
      if (get_recently_learned_numbers st now 48 1).length < 3 then []
      else ((List.range (count * 3)).foldl
        (comboStep (get_recently_learned_numbers st now 48 1) sample) []).take count := rfl
  by_cases h3 : (get_recently_learned_numbers st now 48 1).length < 3
  · rw [hout, if_pos h3]
    exact ⟨fun _ => rfl, by simp, by simp, by simp⟩
  · have hinv := comboStep_foldl_spec (get_recently_learned_numbers st now 48 1) sample hs
      (List.range (count * 3)) [] List.nodup_nil (by simp)
    rw [hout, if_neg h3]
    refine ⟨fun hlt => absurd hlt h3, ?_, ?_, ?_⟩
    · rw [List.length_take]
      exact inf_le_left
    · exact List.Nodup.sublist (List.take_sublist _ _) hinv.1
    · intro s hsmem
      exact hinv.2 s (List.mem_of_mem_take hsmem)

/-- C4: when fewer than 3 keys are recently learned (tested within 48h with
at least one correct answer) the combination pool is empty; otherwise the
loop of at most `3×count` draws yields at most `count` pairwise-distinct
sequences, each the concatenation of 3 distinct recently-learned keys into
a 6-character string. -/
theorem C4_generate_combination_sequences (st : Stats) (now : Int) (count : Nat)
    (sample : Nat → List Key)
    (hs : validSample (get_recently_learned_numbers st now 48 1) sample) :
    ((get_recently_learned_numbers st now 48 1).length < 3 →
      generate_combination_sequences st now count sample = []) ∧
    (generate_combination_sequences st now count sample).length ≤ count ∧
    (generate_combination_sequences st now count sample).Nodup ∧
    ∀ s ∈ generate_combination_sequences st now count sample,
      comboSpec (get_recently_learned_numbers st now 48 1) s :=
  generate_spec st now count sample hs

/-- The constant sampler `sampleW` is admissible for the ledger `stW`. -/
lemma sampleW_valid : validSample (get_recently_learned_numbers stW 0 48 1) sampleW := by
  intro i
  refine ⟨rfl, ?_, ?_⟩
  · show ([⟨0, by omega⟩, ⟨1, by omega⟩, ⟨2, by omega⟩] : List Key).Nodup
    decide
  intro k hk
  have h : get_recently_learned_numbers stW 0 48 1 =
      [⟨0, by omega⟩, ⟨1, by omega⟩, ⟨2, by omega⟩] := by decide
  rw [h]
  exact hk

/-- C4 witness: the generation run on the concrete ledger `stW` with the
constant sampler. -/
theorem C4_generate_combination_sequences_witness :
    (generate_combination_sequences stW 0 8 sampleW).length ≤ 8 ∧
    (generate_combination_sequences stW 0 8 sampleW).Nodup := by
  have h := C4_generate_combination_sequences stW 0 8 sampleW sampleW_valid
  exact ⟨h.2.1, h.2.2.1⟩

/-- C6: any combination sequence produced by the selection engine's pool is
6 characters long, and the training loop's step on a 6-character selection
leaves the whole stats ledger — every key's counters and `last_tested` —
and the session counters untouched (`update_stats` is never reached). -/
theorem C6_combination_grading_frame (st : Stats) (sess : SessionStats) (now : Int)
    (sample : Nat → List Key) (b : Bool) (s : String)
    (hs : validSample (get_recently_learned_numbers st now 48 1) sample)
    (hmem : s ∈ generate_combination_sequences st now 8 sample) :
    s.length = 6 ∧ training_step st sess now s b = some (st, sess) := by
  obtain ⟨a, a', c, -, -, -, -, -, -, -, hlen⟩ :=
    (generate_spec st now 8 sample hs).2.2.2 s hmem
  refine ⟨hlen, ?_⟩
  unfold training_step
  rw [if_pos hlen]

/-- C6 witness: grading the concrete generated sequence `"000102"` of the
ledger `stW` changes nothing. -/
theorem C6_combination_grading_frame_witness :
    ("000102" : String).length = 6 ∧
    training_step stW init_session_stats 0 "000102" true =
      some (stW, init_session_stats) :=
  C6_combination_grading_frame stW init_session_stats 0 sampleW true "000102"
    sampleW_valid (by decide)

/-- C5 counterexample: in `st5`/`pao5` key 99 was answered correctly 30
hours ago, so every key draws all three of its components from the
recently-correct component pools and none was tested in the last 24 hours;
the first 20 association-table keys are flagged and key 20, though it meets
the claim's criteria (3 ≥ 2 recent components, never tested), is not. -/
theorem C5_counterexample :
    is_combination_test st5 pao5 0 ⟨20, by omega⟩ = false ∧
    (pao5.assoc ⟨20, by omega⟩).person ∈ (get_recent_components st5 pao5 0 48).persons ∧
    (pao5.assoc ⟨20, by omega⟩).action ∈ (get_recent_components st5 pao5 0 48).actions ∧
    (pao5.assoc ⟨20, by omega⟩).object ∈ (get_recent_components st5 pao5 0 48).objects ∧
    (st5.entryOf ⟨20, by omega⟩).last_tested = .absent := by
  refine ⟨by decide, by decide, by decide, by decide, rfl⟩

/-- C5 amended: a key is flagged as a combination-challenge presentation
iff it is among the first 20 association-table keys (in table order) that
draw at least 2 of their components from the recently-correct component
pools and are not among the at most 50 ledger-order keys reported as tested
within 24h; and the flag only changes the presentation messages — the
returned grade equals the flag-free grading expression. -/
theorem C5_combination_flag (st : Stats) (pao : PAOData) (now : Int) (number : Key)
    (coin : Bool) (up ua uo un : String) :
    (is_combination_test st pao now number = true ↔
      number ∈ (pao.keys.filter
        (combinationCandidate st pao now (get_recent_components st pao now 48))).take 20) ∧
    ((test_number_comprehensive st pao now number coin up ua uo un).1 =
      if (st.entryOf number).correct + (st.entryOf number).incorrect = 0 then
        gradeForward (pao.assoc number) up ua uo
      else if coin then gradeForward (pao.assoc number) up ua uo
      else gradeReverse number un) := by
  constructor
  · have hdef : is_combination_test st pao now number = true ↔
        number ∈ find_combination_test_numbers st pao now 20 := by
      simp [is_combination_test]
    rw [hdef]
    unfold find_combination_test_numbers
    by_cases hg : (get_recent_components st pao now 48).persons = [] ∧
        (get_recent_components st pao now 48).actions = [] ∧
        (get_recent_components st pao now 48).objects = []
    · rw [if_pos hg]
      obtain ⟨hP, hA, hO⟩ := hg
      have hfilter : pao.keys.filter
          (combinationCandidate st pao now (get_recent_components st pao now 48)) = [] := by
        apply List.filter_eq_nil_iff.mpr
        intro x hx
        unfold combinationCandidate
        rw [hP, hA, hO]
        simp
      rw [hfilter]
      simp
    · rw [if_neg hg]
  · by_cases hf : (st.entryOf number).correct + (st.entryOf number).incorrect = 0
    · simp [test_number_comprehensive, hf]
    · cases coin <;> simp [test_number_comprehensive, hf]

lemma digitChar_inj_lt (m n : Nat) (hm : m < 10) (hn : n < 10)
    (h : Nat.digitChar m = Nat.digitChar n) : m = n := by
  have key : ∀ m' n' : Fin 10, Nat.digitChar m'.val = Nat.digitChar n'.val → m' = n' := by
    decide
  have h2 := key ⟨m, hm⟩ ⟨n, hn⟩ h
  exact Fin.mk.inj_iff.mp h2

/-- Distinct keys render to distinct two-digit strings, so a uniform
fallback draw yields a uniform key string. -/
lemma pad2_injective : Function.Injective pad2 := by
  intro a b h
  have hd : [Nat.digitChar (a.val / 10), Nat.digitChar (a.val % 10)] =
      [Nat.digitChar (b.val / 10), Nat.digitChar (b.val % 10)] := congrArg String.data h
  injection hd with h1 hrest
  injection hrest with h2 _
  have ha : a.val < 100 := a.isLt
  have hb : b.val < 100 := b.isLt
  have e1 := digitChar_inj_lt _ _ (by omega) (by omega) h1
  have e2 := digitChar_inj_lt _ _ (by omega) (by omega) h2
  exact Fin.ext (by omega)

/-- Fall-through through a list of (pool, draw) pairs: the first non-empty
pool is picked from, and when all pools are empty the fallback key is
rendered. -/
def chainPick : List (List String × Nat) → Key → String
  | [], fb => pad2 fb
  | p :: ps, fb => if p.1 ≠ [] then pick p.1 p.2 else chainPick ps fb

lemma find?_elim_eq_chainPick (ps : List (List String × Nat)) (fb : Key) :
    ((ps.find? (fun p => !p.1.isEmpty)).elim (pad2 fb) (fun p => pick p.1 p.2)) =
      chainPick ps fb := by
  induction ps with
  | nil => rfl
  | cons p ps ih =>
    by_cases hp : p.1 = []
    · rw [List.find?_cons_of_neg _ (by simp [hp])]
      simp [chainPick, hp, ih]
    · rw [List.find?_cons_of_pos _ (by simp [hp])]
      simp [chainPick, hp]

/-- The selection chain of `select_number_for_training`, over abstract
pools, equals the banded fall-through of the spec reading. -/
lemma select_eq_spec_core (A B C D : List String) (a b c d : Nat) (r : ℚ) (fb : Key) :
    (if r < 0.35 ∧ A ≠ [] then pick A a
     else if r < 0.50 ∧ B ≠ [] then pick B b
     else if r < 0.65 ∧ C ≠ [] then pick C c
     else if r < 0.80 ∧ D ≠ [] then pick D d
     else pad2 fb) =
    ((([(A, a), (B, b), (C, c), (D, d)].drop
        (if r < 0.35 then 0 else if r < 0.50 then 1 else if r < 0.65 then 2
         else if r < 0.80 then 3 else 4)).find? (fun p => !p.1.isEmpty)).elim
      (pad2 fb) (fun p => pick p.1 p.2)) := by
  rcases lt_or_le r 0.35 with h1 | h1
  · have h2 : r < 0.50 := by linarith
    have h3 : r < 0.65 := by linarith
    have h4 : r < 0.80 := by linarith
    rw [if_pos h1, List.drop_zero, find?_elim_eq_chainPick]
    simp [chainPick, h1, h2, h3, h4]
  · have h1' : ¬r < 0.35 := not_lt.mpr h1
    rcases lt_or_le r 0.50 with h2 | h2
    · have h3 : r < 0.65 := by linarith
      have h4 : r < 0.80 := by linarith
      rw [if_neg h1', if_pos h2,
        show ([(A, a), (B, b), (C, c), (D, d)].drop 1) = [(B, b), (C, c), (D, d)] from rfl,
        find?_elim_eq_chainPick]
      simp [chainPick, h1', h2, h3, h4]
    · have h2' : ¬r < 0.50 := not_lt.mpr h2
      rcases lt_or_le r 0.65 with h3 | h3
      · have h4 : r < 0.80 := by linarith
        rw [if_neg h1', if_neg h2', if_pos h3,
          show ([(A, a), (B, b), (C, c), (D, d)].drop 2) = [(C, c), (D, d)] from rfl,
          find?_elim_eq_chainPick]
        simp [chainPick, h1', h2', h3, h4]
      · have h3' : ¬r < 0.65 := not_lt.mpr h3
        rcases lt_or_le r 0.80 with h4 | h4
        · rw [if_neg h1', if_neg h2', if_neg h3', if_pos h4,
            show ([(A, a), (B, b), (C, c), (D, d)].drop 3) = [(D, d)] from rfl,
            find?_elim_eq_chainPick]
          simp [chainPick, h1', h2', h3', h4]
        · have h4' : ¬r < 0.80 := not_lt.mpr h4
          rw [if_neg h1', if_neg h2', if_neg h3', if_neg h4',
            show ([(A, a), (B, b), (C, c), (D, d)].drop 4) = [] from rfl]
          simp [h1', h2', h3', h4']

/-- C1: `select_number_for_training` realizes the banded fall-through
selection of the spec (`selectBandSpec`): the draw `r` lands in the
cumulative bands `[0,0.35)`, `[0.35,0.50)`, `[0.50,0.65)`, `[0.65,0.80)`,
`[0.80,1)`; an empty band falls through to the next non-empty pool in that
order, finally to the fallback; within the chosen band `pick` returns the
injected-index element of the pool, and when all four pools are empty the
result is `pad2` of the uniform fallback draw, with `pad2` injective — a
uniformly distributed random key 00–99. -/
theorem C1_selection_bands (st : Stats) (now : Int) (r : ℚ) (c1 c2 c3 c4 : Nat)
    (fb : Key) (sample : Nat → List Key) :
    select_number_for_training st now r c1 c2 c3 c4 fb sample =
      selectBandSpec st now r c1 c2 c3 c4 fb sample ∧
    (veryRecentPool st now = [] → recentPool st now = [] → weakPool st = [] →
      generate_combination_sequences st now 8 sample = [] →
      select_number_for_training st now r c1 c2 c3 c4 fb sample = pad2 fb) ∧
    Function.Injective pad2 ∧
    (∀ (l : List String) (i : Nat) (h : i < l.length), pick l i = l.get ⟨i, h⟩) := by
  refine ⟨?_, ?_, pad2_injective, ?_⟩
  · simp only [select_number_for_training, selectBandSpec]
    exact select_eq_spec_core _ _ _ _ _ _ _ _ _ _
  · intro hA hB hC hD
    simp [select_number_for_training, hA, hB, hC, hD]
  · intro l i h
    unfold pick
    rw [Nat.mod_eq_of_lt h]
    exact List.getD_eq_get l "" h

/-- C1 witness: on the empty ledger all four pools are empty and the
selection returns the fallback key, both for a draw inside the fallback
band and for one inside the very-recent band. -/
theorem C1_selection_bands_witness :
    select_number_for_training stEmpty 0 (9/10) 0 0 0 0 ⟨37, by omega⟩ (fun _ => []) =
      pad2 ⟨37, by omega⟩ ∧
    select_number_for_training stEmpty 0 (1/10) 0 0 0 0 ⟨37, by omega⟩ (fun _ => []) =
      pad2 ⟨37, by omega⟩ := by
  have hw : weakPool stEmpty = [] := by
    simp [weakPool, get_weakest_numbers, stEmpty]
  have h9 := C1_selection_bands stEmpty 0 (9/10) 0 0 0 0 ⟨37, by omega⟩ (fun _ => [])
  have h1 := C1_selection_bands stEmpty 0 (1/10) 0 0 0 0 ⟨37, by omega⟩ (fun _ => [])
  exact ⟨h9.2.1 rfl rfl hw rfl, h1.2.1 rfl rfl hw rfl⟩

end PAO
